import Mathlib

/-!
# Verification of the openclaw session/dispatch core

Shallow embedding of the parts of the openclaw code base that the checked
properties are about, together with proofs.  Each definition is translated
from one source function (named in its doc comment); definitions whose
implementing source file is absent from the repository snapshot are marked
`Modelled from the spec:` and follow the specification text.

JavaScript numbers are modelled as `ℚ` where fractional arithmetic matters
(reconnect backoff) and as `Nat` for millisecond timestamps.  JavaScript
strings are modelled as `String` (code-unit vs. codepoint differences only
arise outside ASCII, which none of the checked properties exercise).
-/

/-! ## Generic string helpers (ASCII models of the JS string operations used) -/

/-- Model of JS `String.prototype.toLowerCase` restricted to ASCII. -/
def lowerStr (s : String) : String :=
  String.mk (s.toList.map Char.toLower)

/-- Model of JS `String.prototype.trim` (ASCII whitespace). -/
def strTrim (s : String) : String :=
  String.mk (((s.toList.dropWhile Char.isWhitespace).reverse.dropWhile
    Char.isWhitespace).reverse)

/-- Model of JS `s.startsWith(pre)`. -/
def strStartsWith (s pre : String) : Bool :=
  pre.toList.isPrefixOf s.toList

/-- Model of JS `s.endsWith(suf)`. -/
def strEndsWith (s suf : String) : Bool :=
  suf.toList.isSuffixOf s.toList

/-- Model of JS `s.slice(0, -n)`. -/
def strDropRight (s : String) (n : Nat) : String :=
  String.mk (s.toList.take (s.toList.length - n))

/-- Model of JS `s.includes(c)` for a single character. -/
def strContainsChar (s : String) (c : Char) : Bool :=
  s.toList.contains c

/-- String length in characters (equal to JS code-unit length on ASCII). -/
def strLength (s : String) : Nat :=
  s.toList.length

/-- Worker for `splitOnChar`. -/
def splitOnCharAux (sep : Char) : List Char → List Char → List String
  | [], acc => [String.mk acc.reverse]
  | c :: rest, acc =>
      if c = sep then String.mk acc.reverse :: splitOnCharAux sep rest []
      else splitOnCharAux sep rest (c :: acc)

/-- Model of JS `s.split(sep)` for a single-character separator. -/
def splitOnChar (sep : Char) (s : String) : List String :=
  splitOnCharAux sep s.toList []

/-- Containment of one character list in another (sliding-window check). -/
def charsContain (needle : List Char) : List Char → Bool
  | [] => needle.isEmpty
  | h :: t => needle.isPrefixOf (h :: t) || charsContain needle t

/-- Model of JS `a.includes(b)` (substring containment). -/
def strIncludes (hay needle : String) : Bool :=
  charsContain needle.toList hay.toList

/-! ## Chrome-extension reconnect policy (`background-utils.js`) -/

/-- Model of `reconnectDelayMs(attempt, opts)` from `background-utils.js`:
`min(baseMs * 2 ** attempt, maxMs) + max(0, jitterMs) * random()`.
The option sanitization (`Number.isFinite` fallbacks, clamping of a negative
or NaN attempt to 0) is reflected by the typed parameters: `attempt : Nat`
and rational option values. -/
def reconnectDelayMs (attempt : Nat) (baseMs maxMs jitterMs r : ℚ) : ℚ :=
  min (baseMs * 2 ^ attempt) maxMs + max 0 jitterMs * r

/-- Model of `isRetryableReconnectError(err)` from `background-utils.js`: the error
message is retryable unless it contains `"Missing gatewayToken"`. -/
def isRetryableReconnectError (message : String) : Bool :=
  if strIncludes message "Missing gatewayToken" then false else true

/-! ## before_llm_call hook stream wrapper
(`src/agents/pi-embedded-runner/run/hook-stream-wrapper.ts`) -/

/-- The folded result of the `before_llm_call` hook chain as consumed by
`wrapStreamFnWithHooks` (fields of the JS hook result object). -/
structure BeforeLlmHookResult where
  block : Bool := false
  blockReason : Option String := none
  messages : Option (List String) := none
  systemPrompt : Option String := none
  tools : Option (List String) := none
deriving Repr, DecidableEq

/-- The LLM context seen by a `StreamFn` (`systemPrompt`, `messages`, `tools`);
messages are abstract payloads, tools are kept as their names. -/
structure LlmContext where
  systemPrompt : Option String := none
  messages : List String := []
  tools : Option (List String) := none
deriving Repr, DecidableEq

/-- JS truthiness of an optional string (`undefined` and `""` are falsy). -/
def jsTruthyStr : Option String → Bool
  | some s => s ≠ ""
  | none => false

/-- JS truthiness of an optional array (`undefined` is falsy, arrays truthy). -/
def jsTruthyList : Option (List String) → Bool
  | some _ => true
  | none => false

/-- The context-modification step of `wrapStreamFnWithHooks`: applied when
`result?.messages || result?.systemPrompt || result?.tools` is truthy;
`tools` filters the context tools to the allowed names. -/
def applyHookContextModifications (r : BeforeLlmHookResult) (context : LlmContext) :
    LlmContext :=
  if jsTruthyList r.messages || jsTruthyStr r.systemPrompt || jsTruthyList r.tools then
    let filteredTools :=
      match r.tools with
      | some allowed =>
          some (((context.tools.getD []).filter (fun t => allowed.contains t)))
      | none => context.tools
    { systemPrompt := match r.systemPrompt with
        | some s => some s
        | none => context.systemPrompt
      messages := r.messages.getD context.messages
      tools := filteredTools }
  else context

/-- Model of `wrapStreamFnWithHooks` (the `before_llm_call` section): the wrapped
`StreamFn` body, with the hook invocation's outcome (`runBeforeLlmCall`,
which may itself throw) abstracted as an `Except`/`Option` input, and
exceptions modelled as `Except String`.  The `context_assembled` section of
the source only fires a void hook and logs on failure, so it does not affect
the returned value and is not part of the pure model. -/
def wrappedStreamCall {α : Type} (hasBeforeLlmHooks : Bool)
    (hookOutcome : Except String (Option BeforeLlmHookResult))
    (context : LlmContext) (inner : LlmContext → α) : Except String α :=
  if !hasBeforeLlmHooks then .ok (inner context)
  else
    match hookOutcome with
    | .error e =>
        -- catch: re-throw explicit block errors, otherwise log and continue
        if strStartsWith e "LLM call blocked by plugin:" then .error e
        else .ok (inner context)
    | .ok res =>
        match res with
        | some r =>
            if r.block then
              .error ("LLM call blocked by plugin: "
                ++ r.blockReason.getD "blocked by before_llm_call hook")
            else .ok (inner (applyHookContextModifications r context))
        | none => .ok (inner context)

/-! ## Cron scheduler (`src/cron/service/service.ts`, claim C1;
`src/cron/service/jobs.ts` is absent from the snapshot, so its routines are
modelled from the spec, claim C2) -/

/-- Cron schedule kinds. `Modelled from the spec:` the `jobs.ts` type is not
in the snapshot; §3 gives `every(ms, anchorMs) | cron(expr, tz) | at(ts)`.
Timezone-dependent `cron(expr, tz)` schedules are outside this millisecond
model and are not needed by any claim. -/
inductive CronSchedule where
  | every (everyMs anchorMs : Nat)
  | atTime (ts : Nat)
deriving Repr, DecidableEq

/-- The mutable `state` record of a `CronJob` (§3 / `jobs.ts`). -/
structure CronJobState where
  nextRunAtMs : Option Nat := none
  lastRunAtMs : Option Nat := none
  runningAtMs : Option Nat := none
  lastError : Option String := none
deriving Repr, DecidableEq

/-- A cron job (the fields the checked claims depend on). -/
structure CronJob where
  id : String
  enabled : Bool := true
  schedule : CronSchedule
  state : CronJobState := {}
deriving Repr, DecidableEq

/-- Modelled from the spec: `computeNextRunAtMs(job, now)` from `jobs.ts`
(absent): for `every`, the smallest `anchorMs + k*everyMs ≥ now` with
`k ≥ 0`; for `at`, `ts` if `ts > now` else never. -/
def computeJobNextRunAtMs (job : CronJob) (now : Nat) : Option Nat :=
  match job.schedule with
  | .every everyMs anchorMs =>
      if everyMs = 0 then none
      else if now ≤ anchorMs then some anchorMs
      else some (anchorMs + everyMs * ((now - anchorMs + everyMs - 1) / everyMs))
  | .atTime ts => if now < ts then some ts else none

/-- Modelled from the spec: `isJobDue(job, now, {forced})` from `jobs.ts`
(absent): `force` bypasses the due check, otherwise the job is due when its
`nextRunAtMs` is set and has been reached. -/
def isJobDue (job : CronJob) (now : Nat) (forced : Bool) : Bool :=
  forced ||
    match job.state.nextRunAtMs with
    | some t => t ≤ now
    | none => false

/-- Modelled from the spec: `recomputeNextRuns` from `jobs.ts` (absent),
per §4.3 and `service.recompute-preserves-due-jobs.test.ts`: recomputes the
`nextRunAtMs` of every enabled job, but preserves a past-due `nextRunAtMs`
when the job has never executed for that slot (`lastRunAtMs < nextRunAtMs`)
and is not currently running.  Disabled jobs are untouched. -/
def recomputeNextRunsJob (job : CronJob) (now : Nat) : CronJob :=
  if !job.enabled then job
  else
    let preserve :=
      match job.state.nextRunAtMs with
      | some t =>
          decide (t ≤ now) && job.state.runningAtMs.isNone &&
            (match job.state.lastRunAtMs with
             | some l => decide (l < t)
             | none => true)
      | none => false
    if preserve then job
    else { job with state := { job.state with nextRunAtMs := computeJobNextRunAtMs job now } }

/-- Model of `recomputeNextRuns(state)` over the whole job store. -/
def recomputeNextRuns (jobs : List CronJob) (now : Nat) : List CronJob :=
  jobs.map (recomputeNextRunsJob · now)

/-- Model of `state.store.jobs.find(entry => entry.id === id)` / `findJobOrThrow`. -/
def findJob (jobs : List CronJob) (id : String) : Option CronJob :=
  jobs.find? (fun j => j.id = id)

/-- In-place mutation of the job found by `findJobOrThrow`: replaces the
first job with the given id. -/
def updateJob : List CronJob → String → CronJob → List CronJob
  | [], _, _ => []
  | j :: rest, id, j2 => if j.id = id then j2 :: rest else j :: updateJob rest id j2

/-- Outcome of the locked preparation phase of `run(state, id, mode)`. -/
inductive CronRunOutcome where
  | alreadyRunning
  | notDue
  | reserved (executionJob : CronJob) (startedAt : Nat)
deriving Repr, DecidableEq

/-- The locked preparation phase of `run(state, id, mode)` from
`service.ts` lines 211-241: under the cron lock it rejects a job whose
`runningAtMs` is set (`{ran:false, reason:"already-running"}`), rejects a
job that is not due unless `mode === "force"`, and otherwise reserves the
run by setting `runningAtMs = now` and clearing `lastError`, persisting the
store before the lock is released.  `none` models `findJobOrThrow`
throwing.  The first component of the result is the persisted store. -/
def prepareRun (jobs : List CronJob) (id : String) (now : Nat) (forced : Bool) :
    Option (List CronJob × CronRunOutcome) :=
  match findJob jobs id with
  | none => none
  | some job =>
      if job.state.runningAtMs.isSome then some (jobs, .alreadyRunning)
      else if !isJobDue job now forced then some (jobs, .notDue)
      else
        let job2 := { job with
          state := { job.state with runningAtMs := some now, lastError := none } }
        some (updateJob jobs id job2, .reserved job2 now)

/-! ## Reply agent block streaming (`src/auto-reply/reply/agent-runner.ts`) -/

/-- Model of `ReplyPayload` (the fields `buildPayloadKey` and the final filter use). -/
structure ReplyPayload where
  text : Option String := none
  mediaUrls : Option (List String) := none
  mediaUrl : Option String := none
  replyToId : Option String := none
deriving Repr, DecidableEq

/-- The fingerprint produced by `buildPayloadKey`; the source serializes it
with `JSON.stringify`, which is injective on these fields, so the record
itself is the key. -/
structure PayloadKey where
  text : String
  mediaList : List String
  replyToId : Option String
deriving Repr, DecidableEq

/-- Model of `buildPayloadKey(payload)` from `agent-runner.ts` lines 126-138:
trimmed text, the media list (`mediaUrls` when non-empty, else a singleton
of a truthy `mediaUrl`, else empty), and `replyToId ?? null`. -/
def buildPayloadKey (p : ReplyPayload) : PayloadKey :=
  { text := match p.text with
      | some s => strTrim s
      | none => ""
    mediaList :=
      match p.mediaUrls with
      | some l =>
          if l.length ≠ 0 then l
          else match p.mediaUrl with
            | some u => if u ≠ "" then [u] else []
            | none => []
      | none =>
          match p.mediaUrl with
          | some u => if u ≠ "" then [u] else []
          | none => []
    replyToId := p.replyToId }

/-- The dedup state of one turn: `streamedPayloadKeys`,
`pendingStreamedPayloadKeys` and `didStreamBlockReply`. -/
structure BlockStreamState where
  streamedKeys : List PayloadKey := []
  pendingKeys : List PayloadKey := []
  didStreamBlockReply : Bool := false
deriving Repr, DecidableEq

/-- Events of the block-streaming state machine inside one turn.
`blockStart p` is the synchronous dedup section of the `onBlockReply`
handler running for the (already heartbeat/tag-cleaned) payload `p`;
`blockSettle k success` is the asynchronous delivery task for key `k`
settling (`.then` records the key as streamed and sets
`didStreamBlockReply`; a rejection only logs; `.finally` removes the
pending mark). -/
inductive BlockStreamEvent where
  | blockStart (p : ReplyPayload)
  | blockSettle (k : PayloadKey) (success : Bool)
deriving Repr, DecidableEq

/-- One step of the block-streaming machine (`agent-runner.ts` lines
293-327).  Returns the next state, the payload handed to `onBlockReply`
delivery (if the block was not dropped), and the key whose delivery
completed successfully (if any). -/
def blockStreamStep (s : BlockStreamState) :
    BlockStreamEvent → BlockStreamState × Option ReplyPayload × Option PayloadKey
  | .blockStart p =>
      let k := buildPayloadKey p
      if s.streamedKeys.contains k || s.pendingKeys.contains k then
        (s, none, none)
      else
        ({ s with pendingKeys := k :: s.pendingKeys }, some p, none)
  | .blockSettle k success =>
      if s.pendingKeys.contains k then
        if success then
          ({ s with
              streamedKeys := k :: s.streamedKeys
              pendingKeys := s.pendingKeys.erase k
              didStreamBlockReply := true },
            none, some k)
        else
          ({ s with pendingKeys := s.pendingKeys.erase k }, none, none)
      else (s, none, none)

/-- Folds a turn's event interleaving, collecting the payloads handed to
`onBlockReply` and the keys of successfully delivered blocks (in order). -/
def runBlockStream : BlockStreamState → List BlockStreamEvent →
    BlockStreamState × List ReplyPayload × List PayloadKey
  | s, [] => (s, [], [])
  | s, e :: rest =>
      let (s2, invoked, delivered) := blockStreamStep s e
      let (s3, invs, dels) := runBlockStream s2 rest
      (s3, invoked.toList ++ invs, delivered.toList ++ dels)

/-- The final payload filter from `agent-runner.ts` lines 457-465:
`shouldDropFinalPayloads = blockStreamingEnabled && didStreamBlockReply`
empties the final set, otherwise block streaming filters out payloads whose
fingerprint was streamed. -/
def filterFinalPayloads (blockStreamingEnabled didStreamBlockReply : Bool)
    (streamedKeys : List PayloadKey) (replyTaggedPayloads : List ReplyPayload) :
    List ReplyPayload :=
  let shouldDropFinalPayloads := blockStreamingEnabled && didStreamBlockReply
  if shouldDropFinalPayloads then []
  else if blockStreamingEnabled then
    replyTaggedPayloads.filter (fun p => !(streamedKeys.contains (buildPayloadKey p)))
  else replyTaggedPayloads

/-! ## Node host `system.run` invoke (`src/node-host/invoke-system-run.ts`) -/

/-- The decision object returned by `evaluateSystemRunPolicy` (implemented
in `exec-policy.ts`, a collaborator of the handler): the fields
`handleSystemRunInvoke` branches on. -/
structure SystemRunPolicyDecision where
  allowed : Bool
  eventReason : String := ""
  errorMessage : String := ""
deriving Repr, DecidableEq

/-- Outcome of `runViaMacAppExecHost`: `unreachable` models a `null`
response, `refused` a `response.ok === false` (with its error reason and
message), `ran` a successful exec-host run carrying `result.success`. -/
inductive MacExecHostOutcome where
  | unreachable
  | refused (reason : Option String) (message : String)
  | ran (success : Option Bool)
deriving Repr, DecidableEq

/-- Gateway events the handler can emit (`exec.denied` with its reason, or
`exec.finished` carrying `result.success`). -/
inductive ExecEvent where
  | denied (reason : String)
  | finished (success : Option Bool)
deriving Repr, DecidableEq

/-- The invoke result sent back (`sendInvokeResult`). -/
inductive SystemRunInvokeOutcome where
  | invalidRequest (message : String)
  | unavailable (message : String)
  | ok
deriving Repr, DecidableEq

/-- The event/result control flow of `handleSystemRunInvoke`
(`invoke-system-run.ts` lines 75-359).  Inputs abstract the handler's
collaborators: `commandOk` is the `resolveSystemRunCommand` validation
(failure returns `INVALID_REQUEST` before any event), `policy` the
`evaluateSystemRunPolicy` decision, `macOutcome` the exec-host delegation
result used when `preferMacAppExecHost`, `runSuccess` the local
`runCommand` result's `success` field.  Allowlist persistence and use
tracking touch no events and are omitted; output truncation rewrites
stdout/stderr only. -/
def systemRunEvents (commandOk : Bool) (policy : SystemRunPolicyDecision)
    (preferMacAppExecHost : Bool) (macOutcome : MacExecHostOutcome)
    (execHostEnforced execHostFallbackAllowed : Bool)
    (needsScreenRecording : Bool) (runSuccess : Option Bool) :
    List ExecEvent × SystemRunInvokeOutcome :=
  if !commandOk then ([], .invalidRequest "command required")
  else if !policy.allowed then
    ([.denied policy.eventReason], .unavailable policy.errorMessage)
  else
    -- mac-app exec host delegation
    let macShortCircuit : Option (List ExecEvent × SystemRunInvokeOutcome) :=
      if preferMacAppExecHost then
        match macOutcome with
        | .unreachable =>
            if execHostEnforced || !execHostFallbackAllowed then
              some ([.denied "companion-unavailable"],
                .unavailable "COMPANION_APP_UNAVAILABLE: macOS app exec host unreachable")
            else none
        | .refused reason message =>
            some ([.denied (reason.getD "approval-required")], .unavailable message)
        | .ran success => some ([.finished success], .ok)
      else none
    match macShortCircuit with
    | some out => out
    | none =>
        if needsScreenRecording then
          ([.denied "permission:screenRecording"],
            .unavailable "PERMISSION_MISSING: screenRecording")
        else ([.finished runSuccess], .ok)

/-! ## Exec wrapper resolution (`src/infra/exec-wrapper-resolution.ts`) -/

def MAX_DISPATCH_WRAPPER_DEPTH : Nat := 4

/-- Node `path.posix.basename(s)` (no extension argument): drop trailing
`/` separators, then take the last `/`-free component. -/
def posixBasename (s : String) : String :=
  let rev := s.toList.reverse.dropWhile (· = '/')
  if rev = [] then "" else String.mk ((rev.takeWhile (· ≠ '/')).reverse)

/-- Node `path.win32.basename(s)`: skip a leading drive letter (`X:`), then
the same scan with both `/` and `\` as separators. -/
def win32Basename (s : String) : String :=
  let cs := s.toList
  let core : List Char :=
    match cs with
    | a :: b :: rest => if a.isAlpha ∧ b = ':' then rest else cs
    | _ => cs
  let isSep : Char → Bool := fun c => c = '/' || c = '\\'
  let rev := core.reverse.dropWhile isSep
  if rev = [] then "" else String.mk ((rev.takeWhile (fun c => !isSep c)).reverse)

/-- Model of `basenameLower(token)`: the shorter of the win32 and posix basenames,
trimmed and lower-cased. -/
def basenameLower (token : String) : String :=
  let win := win32Basename token
  let posix := posixBasename token
  let base := if strLength win < strLength posix then win else posix
  lowerStr (strTrim base)

def WINDOWS_EXE_SUFFIX : String := ".exe"

/-- Model of `stripWindowsExeSuffix(value)`. -/
def stripWindowsExeSuffix (value : String) : String :=
  if strEndsWith value WINDOWS_EXE_SUFFIX then strDropRight value (strLength WINDOWS_EXE_SUFFIX)
  else value

/-- Model of `normalizeExecutableToken(token)`. -/
def normalizeExecutableToken (token : String) : String :=
  stripWindowsExeSuffix (basenameLower token)

/-- Model of `isEnvAssignment(token)`: the regex `/^[A-Za-z_][A-Za-z0-9_]*=.*/`. -/
def isEnvAssignment (token : String) : Bool :=
  match token.toList with
  | c :: rest =>
      (c.isAlpha || c = '_') &&
        ((rest.dropWhile (fun d => d.isAlphanum || d = '_')).head? = some '=')
  | [] => false

/-- Model of `lower.split("=", 2)[0]`: the part before the first `=`. -/
def flagPart (lower : String) : String :=
  String.mk (lower.toList.takeWhile (· ≠ '='))

/-- The regex `/^-\d+$/`. -/
def isDashDigits (lower : String) : Bool :=
  match lower.toList with
  | '-' :: ds => !ds.isEmpty && ds.all Char.isDigit
  | _ => false

inductive WrapperScanDirective where
  | cont
  | consumeNext
  | stop
  | invalid
deriving Repr, DecidableEq

def ENV_OPTIONS_WITH_VALUE : List String :=
  ["-u", "--unset", "-c", "--chdir", "-s", "--split-string",
   "--default-signal", "--ignore-signal", "--block-signal"]
def ENV_FLAG_OPTIONS : List String := ["-i", "--ignore-environment", "-0", "--null"]
def NICE_OPTIONS_WITH_VALUE : List String := ["-n", "--adjustment", "--priority"]
def STDBUF_OPTIONS_WITH_VALUE : List String :=
  ["-i", "--input", "-o", "--output", "-e", "--error"]
def TIMEOUT_FLAG_OPTIONS : List String :=
  ["--foreground", "--preserve-status", "-v", "--verbose"]
def TIMEOUT_OPTIONS_WITH_VALUE : List String := ["-k", "--kill-after", "-s", "--signal"]

/-- The token loop of `scanWrapperInvocation`, running over `argv.slice(1)`:
skips blank tokens, consumes a pending option value, breaks after a
separator, and otherwise follows the per-wrapper `onToken` directive.  The
returned list is `argv.slice(commandIndex)` before the command-index
adjustment (`none` models the `null` aborts). -/
def scanTokens (separators : List String)
    (onToken : String → String → WrapperScanDirective) :
    List String → Bool → Option (List String)
  | [], expectsOptionValue => if expectsOptionValue then none else some []
  | t :: rest, expectsOptionValue =>
      let token := strTrim t
      if token = "" then scanTokens separators onToken rest expectsOptionValue
      else if expectsOptionValue then scanTokens separators onToken rest false
      else if separators.contains token then some rest
      else
        match onToken token (lowerStr token) with
        | .stop => some (t :: rest)
        | .invalid => none
        | .consumeNext => scanTokens separators onToken rest true
        | .cont => scanTokens separators onToken rest false

/-- Model of `scanWrapperInvocation(argv, params)`: run the token loop from index 1
and apply the command-index adjustment (`adjustForTimeout` models the
`timeout` duration token: it shifts the command index by one and requires a
wrapped command after it); an empty remaining command is `null`. -/
def scanWrapperInvocation (argv : List String) (separators : List String)
    (onToken : String → String → WrapperScanDirective)
    (adjustForTimeout : Bool) : Option (List String) :=
  match argv with
  | [] => none
  | _ :: tail =>
      match scanTokens separators onToken tail false with
      | none => none
      | some slice =>
          if adjustForTimeout then
            match slice with
            | _ :: s2 => if s2 = [] then none else some s2
            | [] => none
          else if slice = [] then none else some slice

/-- The `onToken` handler of `unwrapEnvInvocation`. -/
def envOnToken (token lower : String) : WrapperScanDirective :=
  if isEnvAssignment token then .cont
  else if !strStartsWith token "-" || token = "-" then .stop
  else
    let flag := flagPart lower
    if ENV_FLAG_OPTIONS.contains flag then .cont
    else if ENV_OPTIONS_WITH_VALUE.contains flag then
      if strContainsChar lower '=' then .cont else .consumeNext
    else if strStartsWith lower "-u" || strStartsWith lower "-c" || strStartsWith lower "-s" ||
        strStartsWith lower "--unset=" || strStartsWith lower "--chdir=" ||
        strStartsWith lower "--split-string=" || strStartsWith lower "--default-signal=" ||
        strStartsWith lower "--ignore-signal=" || strStartsWith lower "--block-signal=" then
      .cont
    else .invalid

/-- The `onToken` handler of `unwrapNiceInvocation`. -/
def niceOnToken (token lower : String) : WrapperScanDirective :=
  if !strStartsWith token "-" || token = "-" then .stop
  else
    let flag := flagPart lower
    if isDashDigits lower then .cont
    else if NICE_OPTIONS_WITH_VALUE.contains flag then
      if strContainsChar lower '=' || lower ≠ flag then .cont else .consumeNext
    else if strStartsWith lower "-n" && strLength lower > 2 then .cont
    else .invalid

/-- The `onToken` handler of `unwrapNohupInvocation`. -/
def nohupOnToken (token lower : String) : WrapperScanDirective :=
  if !strStartsWith token "-" || token = "-" then .stop
  else if lower = "--help" || lower = "--version" then .cont
  else .invalid

/-- The `onToken` handler of `unwrapStdbufInvocation`. -/
def stdbufOnToken (token lower : String) : WrapperScanDirective :=
  if !strStartsWith token "-" || token = "-" then .stop
  else
    let flag := flagPart lower
    if STDBUF_OPTIONS_WITH_VALUE.contains flag then
      if strContainsChar lower '=' then .cont else .consumeNext
    else .invalid

/-- The `onToken` handler of `unwrapTimeoutInvocation`. -/
def timeoutOnToken (token lower : String) : WrapperScanDirective :=
  if !strStartsWith token "-" || token = "-" then .stop
  else
    let flag := flagPart lower
    if TIMEOUT_FLAG_OPTIONS.contains flag then .cont
    else if TIMEOUT_OPTIONS_WITH_VALUE.contains flag then
      if strContainsChar lower '=' then .cont else .consumeNext
    else .invalid

def unwrapEnvInvocation (argv : List String) : Option (List String) :=
  scanWrapperInvocation argv ["--", "-"] envOnToken false

def unwrapNiceInvocation (argv : List String) : Option (List String) :=
  scanWrapperInvocation argv ["--"] niceOnToken false

def unwrapNohupInvocation (argv : List String) : Option (List String) :=
  scanWrapperInvocation argv ["--"] nohupOnToken false

def unwrapStdbufInvocation (argv : List String) : Option (List String) :=
  scanWrapperInvocation argv ["--"] stdbufOnToken false

def unwrapTimeoutInvocation (argv : List String) : Option (List String) :=
  scanWrapperInvocation argv ["--"] timeoutOnToken true

/-- Model of `DispatchWrapperUnwrapResult`. -/
inductive DispatchWrapperUnwrapResult where
  | notWrapper
  | blocked (wrapper : String)
  | unwrapped (wrapper : String) (argv : List String)
deriving Repr, DecidableEq

/-- Model of `unwrapDispatchWrapper(wrapper, unwrapped)`: a failed unwrap blocks. -/
def unwrapDispatchWrapperFrom (wrapper : String) :
    Option (List String) → DispatchWrapperUnwrapResult
  | some argv => .unwrapped wrapper argv
  | none => .blocked wrapper

/-- The `switch` of `unwrapKnownDispatchWrapperInvocation` on the
normalized executable name. -/
def dispatchByWrapper (wrapper : String) (argv : List String) :
    DispatchWrapperUnwrapResult :=
  if wrapper = "env" then unwrapDispatchWrapperFrom wrapper (unwrapEnvInvocation argv)
  else if wrapper = "nice" then unwrapDispatchWrapperFrom wrapper (unwrapNiceInvocation argv)
  else if wrapper = "nohup" then unwrapDispatchWrapperFrom wrapper (unwrapNohupInvocation argv)
  else if wrapper = "stdbuf" then unwrapDispatchWrapperFrom wrapper (unwrapStdbufInvocation argv)
  else if wrapper = "timeout" then unwrapDispatchWrapperFrom wrapper (unwrapTimeoutInvocation argv)
  else if wrapper = "chrt" || wrapper = "doas" || wrapper = "ionice" ||
      wrapper = "setsid" || wrapper = "sudo" || wrapper = "taskset" then
    .blocked wrapper
  else .notWrapper

/-- Model of `unwrapKnownDispatchWrapperInvocation(argv)` from
`exec-wrapper-resolution.ts` lines 304-331. -/
def unwrapKnownDispatchWrapperInvocation (argv : List String) :
    DispatchWrapperUnwrapResult :=
  let token0 := strTrim (argv.head?.getD "")
  if token0 = "" then .notWrapper
  else dispatchByWrapper (normalizeExecutableToken token0) argv

/-- The loop body of `unwrapDispatchWrappersForResolution`, recursing on the
remaining depth budget. -/
def unwrapDispatchGo : Nat → List String → List String
  | 0, current => current
  | depth + 1, current =>
      match unwrapKnownDispatchWrapperInvocation current with
      | .unwrapped _ argv => if argv = [] then current else unwrapDispatchGo depth argv
      | _ => current

/-- Model of `unwrapDispatchWrappersForResolution(argv)` with the default
`maxDepth = MAX_DISPATCH_WRAPPER_DEPTH`. -/
def unwrapDispatchWrappersForResolution (argv : List String) : List String :=
  unwrapDispatchGo MAX_DISPATCH_WRAPPER_DEPTH argv

/-- One successful unwrap step (the loop's continue condition): `some` of
the unwrapped argv when the head is a stripped wrapper and the remainder is
non-empty. -/
def unwrapOnceStep (argv : List String) : Option (List String) :=
  match unwrapKnownDispatchWrapperInvocation argv with
  | .unwrapped _ a => if a = [] then none else some a
  | _ => none

/-- Exactly `k` successful unwrap steps. -/
def unwrapIterExact : Nat → List String → Option (List String)
  | 0, argv => some argv
  | k + 1, argv =>
      match unwrapOnceStep argv with
      | some next => unwrapIterExact k next
      | none => none

/-! ## Preferred temp dir resolution (`resolvePreferredOpenClawTmpDir`) -/

def POSIX_OPENCLAW_TMP_DIR : String := "/tmp/openclaw"

/-- The fields of an `fs.lstatSync` stat the function inspects. -/
structure DirStat where
  isDirectory : Bool
  isSymbolicLink : Bool
  mode : Option Nat := none
  uid : Option Nat := none
deriving Repr, DecidableEq

/-- An `lstatSync` call outcome: a stat, an `ENOENT` throw, or any other
throw. -/
inductive LstatOutcome where
  | stat (st : DirStat)
  | enoent
  | errOther
deriving Repr, DecidableEq

/-- An `accessSync(p, W_OK | X_OK)` call outcome. -/
inductive AccessOutcome where
  | ok
  | enoent
  | errOther
deriving Repr, DecidableEq

/-- The filesystem oracle behind the injected `lstatSync` / `accessSync` /
`mkdirSync` functions. -/
structure FsModel where
  lstat : String → LstatOutcome
  access : String → AccessOutcome
  mkdirOk : String → Bool

/-- The stat of a directory freshly created by
`mkdirSync(p, {recursive:true, mode:0o700})`: a real directory owned by the
calling uid with no group/other bits. -/
def createdDirStat (processUid : Option Nat) : DirStat :=
  { isDirectory := true, isSymbolicLink := false, mode := some 448, uid := processUid }

/-- Effect of a successful `mkdirSync` on the oracle: the path now lstats
as the created directory and is writable/searchable; `none` models the
call throwing. -/
def mkdirFs (fs : FsModel) (p : String) (processUid : Option Nat) : Option FsModel :=
  if fs.mkdirOk p then
    some { lstat := fun q => if q = p then .stat (createdDirStat processUid) else fs.lstat q
           access := fun q => if q = p then .ok else fs.access q
           mkdirOk := fs.mkdirOk }
  else none

/-- Model of `isSecureDirForUser(st)`: with no uid every dir passes; otherwise a
foreign-owned or group/other-writable dir fails (`0o022 = 18`). -/
def isSecureDirForUser (uid : Option Nat) (st : DirStat) : Bool :=
  match uid with
  | none => true
  | some u =>
      if (match st.uid with | some v => decide (v ≠ u) | none => false) then false
      else if (match st.mode with | some m => decide (m &&& 18 ≠ 0) | none => false) then false
      else true

/-- Model of `isTrustedPreferredDir(st)`. -/
def isTrustedPreferredDir (uid : Option Nat) (st : DirStat) : Bool :=
  st.isDirectory && !st.isSymbolicLink && isSecureDirForUser uid st

inductive DirTrustState where
  | available
  | missing
  | invalid
deriving Repr, DecidableEq

/-- Model of `resolveDirState(candidatePath, requireWritableAccess)`: `ENOENT`
(thrown by `lstatSync` or `accessSync`) is `missing`, any other throw or an
untrusted stat is `invalid`. -/
def resolveDirState (fs : FsModel) (uid : Option Nat) (candidatePath : String)
    (requireWritableAccess : Bool) : DirTrustState :=
  match fs.lstat candidatePath with
  | .enoent => .missing
  | .errOther => .invalid
  | .stat st =>
      if !isTrustedPreferredDir uid st then .invalid
      else if requireWritableAccess then
        match fs.access candidatePath with
        | .ok => .available
        | .enoent => .missing
        | .errOther => .invalid
      else .available

/-- Node `path.join(base, suffix)` for the shapes used here. -/
def joinPath (base suffix : String) : String :=
  if base = "" then suffix
  else if strEndsWith base "/" then base ++ suffix
  else base ++ "/" ++ suffix

/-- The `fallback()` path: `$TMPDIR/openclaw-<uid>` (no uid: `openclaw`). -/
def fallbackTmpPath (tmpdir : String) (uid : Option Nat) : String :=
  joinPath tmpdir (match uid with
    | none => "openclaw"
    | some u => "openclaw-" ++ toString u)

/-- Model of `ensureTrustedFallbackDir()`: return an available fallback, throw on an
invalid one, create a missing one (mode `0o700`) and re-check. -/
def ensureTrustedFallbackDir (fs : FsModel) (uid : Option Nat) (tmpdir : String) :
    Except String (FsModel × String) :=
  let fallbackPath := fallbackTmpPath tmpdir uid
  match resolveDirState fs uid fallbackPath true with
  | .available => .ok (fs, fallbackPath)
  | .invalid => .error ("Unsafe fallback OpenClaw temp dir: " ++ fallbackPath)
  | .missing =>
      match mkdirFs fs fallbackPath uid with
      | none => .error ("Unable to create fallback OpenClaw temp dir: " ++ fallbackPath)
      | some fs2 =>
          if resolveDirState fs2 uid fallbackPath true = .available then .ok (fs2, fallbackPath)
          else .error ("Unsafe fallback OpenClaw temp dir: " ++ fallbackPath)

/-- Model of `resolvePreferredOpenClawTmpDir()` from the state-dir module: prefer an
available `/tmp/openclaw`, fall back on an invalid one, and on a missing
one try to create it (any throw inside the `try`, including one raised by
`ensureTrustedFallbackDir`, lands in the `catch`, which calls
`ensureTrustedFallbackDir` again). -/
def resolvePreferredOpenClawTmpDir (fs : FsModel) (uid : Option Nat) (tmpdir : String) :
    Except String (FsModel × String) :=
  match resolveDirState fs uid POSIX_OPENCLAW_TMP_DIR true with
  | .available => .ok (fs, POSIX_OPENCLAW_TMP_DIR)
  | .invalid => ensureTrustedFallbackDir fs uid tmpdir
  | .missing =>
      match fs.access "/tmp" with
      | .ok =>
          match mkdirFs fs POSIX_OPENCLAW_TMP_DIR uid with
          | none => ensureTrustedFallbackDir fs uid tmpdir
          | some fs2 =>
              if resolveDirState fs2 uid POSIX_OPENCLAW_TMP_DIR true = .available then
                .ok (fs2, POSIX_OPENCLAW_TMP_DIR)
              else
                match ensureTrustedFallbackDir fs2 uid tmpdir with
                | .ok r => .ok r
                | .error _ => ensureTrustedFallbackDir fs2 uid tmpdir
      | _ => ensureTrustedFallbackDir fs uid tmpdir

/-! ## Skill archive extraction safety (claim C9).
The extraction implementation (`skills-install`) is not in the snapshot —
only its tests are — so it is modelled from the spec. -/

/-- An archive entry: its stored path and whether it is a symlink entry. -/
structure ArchiveEntry where
  path : String
  isSymlink : Bool := false
deriving Repr, DecidableEq

/-- Modelled from the spec: resolution of an entry's path components
inside the target: `.` and empty components are dropped, `..` pops a
component and is refused (`none`) when it would traverse above the target
directory. -/
def resolveWithinTarget : List String → List String → Option (List String)
  | [], acc => some acc.reverse
  | c :: rest, acc =>
      if c = "" || c = "." then resolveWithinTarget rest acc
      else if c = ".." then
        match acc with
        | [] => none
        | _ :: acc2 => resolveWithinTarget rest acc2
      else resolveWithinTarget rest (c :: acc)

/-- Modelled from the spec: validation of one entry under
`stripComponents`: symlink entries are refused, and so is any path that
escapes or traverses upward after the first `stripComponents` components
are dropped.  `some none` is a valid entry that resolves to the target
directory itself (creates no file); `some (some comps)` is the
target-relative path to create. -/
def validateEntry (stripComponents : Nat) (e : ArchiveEntry) :
    Option (Option (List String)) :=
  if e.isSymlink then none
  else
    match resolveWithinTarget ((splitOnChar '/' e.path).drop stripComponents) [] with
    | none => none
    | some [] => some none
    | some comps => some (some comps)

/-- Modelled from the spec: archive extraction (e.g. the tar flow of
`installSkill`): every entry is validated first and extraction is refused —
creating nothing — if any entry is a symlink or resolves outside the
target; otherwise the validated files are created under `targetDir`. -/
def extractArchive (stripComponents : Nat) (targetDir : String)
    (entries : List ArchiveEntry) : Except String (List String) :=
  match entries.mapM (validateEntry stripComponents) with
  | none => .error "extraction refused: unsafe archive entry"
  | some resolved =>
      .ok ((resolved.filterMap id).map
        (fun comps => joinPath targetDir (String.intercalate "/" comps)))

/-- Invariant tying the block-streaming dedup state of a turn to the list
of block keys whose delivery completed successfully. -/
abbrev StreamInv (s : BlockStreamState) (delivered : List PayloadKey) : Prop :=
  (∀ k, delivered.count k ≤ 1) ∧
  (∀ k, k ∈ delivered ↔ k ∈ s.streamedKeys) ∧
  s.pendingKeys.Nodup ∧
  (∀ k ∈ s.pendingKeys, k ∉ s.streamedKeys) ∧
  (s.didStreamBlockReply = true ↔ delivered ≠ [])

/-- A concrete filesystem oracle for evaluation: `/tmp/openclaw` exists as
a trusted directory owned by uid 1000. -/
def sampleTrustedFs : FsModel :=
  { lstat := fun q => if q = "/tmp/openclaw" then
      .stat { isDirectory := true, isSymbolicLink := false, mode := some 448,
              uid := some 1000 }
      else .enoent
    access := fun _ => .ok
    mkdirOk := fun _ => false }

/-! ## Helper lemmas -/

theorem findJob_updateJob (jobs : List CronJob) (id : String) (j2 : CronJob)
    (hid : j2.id = id) (h : (findJob jobs id).isSome = true) :
    findJob (updateJob jobs id j2) id = some j2 := by
  induction jobs with
  | nil => simp [findJob] at h
  | cons j rest ih =>
      by_cases hj : j.id = id
      · simp [updateJob, findJob, hj, hid]
      · have hd : (decide (j.id = id)) = false := decide_eq_false hj
        simp only [updateJob, if_neg hj]
        simp only [findJob, List.find?_cons, hd] at h ⊢
        exact ih h

/-! ## Claims C6, C7 -/

/-- C6: for every attempt `a ≥ 0` and random draw `r ∈ [0,1)`,
`reconnectDelayMs` lies between `baseMs` and `maxMs + jitterMs`; it takes
the concrete values 1000/16000/30000 at attempts 0/4/20 with zero jitter,
and 8250 at attempt 3 with jitter 1000 and `r = 1/4`; and
`isRetryableReconnectError` is `false` exactly on messages containing
`"Missing gatewayToken"`. -/
theorem reconnect_policy_spec :
    (∀ (a : Nat) (base maxM jitter r : ℚ), 0 ≤ base → base ≤ maxM → 0 ≤ jitter →
        0 ≤ r → r < 1 →
        base ≤ reconnectDelayMs a base maxM jitter r ∧
          reconnectDelayMs a base maxM jitter r ≤ maxM + jitter) ∧
    reconnectDelayMs 0 1000 30000 0 0 = 1000 ∧
    reconnectDelayMs 4 1000 30000 0 0 = 16000 ∧
    reconnectDelayMs 20 1000 30000 0 0 = 30000 ∧
    reconnectDelayMs 3 1000 30000 1000 (1/4) = 8250 ∧
    (∀ message, isRetryableReconnectError message = false ↔
        strIncludes message "Missing gatewayToken" = true) := by
  refine ⟨?_, ?_, ?_, ?_, ?_, ?_⟩
  · intro a base maxM jitter r hbase hbm hj hr hr1
    have hpow : (1 : ℚ) ≤ 2 ^ a := one_le_pow₀ (by norm_num)
    have hjmax : max 0 jitter = jitter := max_eq_right hj
    constructor
    · have h1 : base ≤ base * 2 ^ a := le_mul_of_one_le_right hbase hpow
      have h2 : base ≤ min (base * 2 ^ a) maxM := le_min h1 hbm
      have h3 : 0 ≤ max 0 jitter * r := mul_nonneg (le_max_left 0 jitter) hr
      calc base ≤ min (base * 2 ^ a) maxM := h2
        _ ≤ min (base * 2 ^ a) maxM + max 0 jitter * r := le_add_of_nonneg_right h3
    · have h1 : min (base * 2 ^ a) maxM ≤ maxM := min_le_right _ _
      have h2 : max 0 jitter * r ≤ max 0 jitter :=
        mul_le_of_le_one_right (le_max_left 0 jitter) (le_of_lt hr1)
      have h3 : max 0 jitter * r ≤ jitter := by
        calc max 0 jitter * r ≤ max 0 jitter := h2
          _ = jitter := hjmax
      exact add_le_add h1 h3
  · norm_num [reconnectDelayMs]
  · norm_num [reconnectDelayMs]
  · norm_num [reconnectDelayMs]
  · norm_num [reconnectDelayMs]
  · intro message
    unfold isRetryableReconnectError
    cases h : strIncludes message "Missing gatewayToken" <;> simp [h]

/-- Witness for C6: the bounds instantiated at attempt 3, base 1000, max
30000, jitter 1000 and `r = 1/4`. -/
theorem reconnect_policy_spec_witness :
    (1000 : ℚ) ≤ reconnectDelayMs 3 1000 30000 1000 (1/4) ∧
      reconnectDelayMs 3 1000 30000 1000 (1/4) ≤ 30000 + 1000 :=
  reconnect_policy_spec.1 3 1000 30000 1000 (1/4)
    (by norm_num) (by norm_num) (by norm_num) (by norm_num) (by norm_num)

/-- C7: when the `before_llm_call` hook chain returns `{block:true}`, the
wrapped StreamFn never invokes the inner runtime StreamFn (the result is
the same for every `inner`) and raises
`"LLM call blocked by plugin: <reason>"`, with the default reason
`"blocked by before_llm_call hook"` when no `blockReason` is given. -/
theorem before_llm_call_block_short_circuits :
    ∀ {α : Type} (context : LlmContext) (inner : LlmContext → α)
      (r : BeforeLlmHookResult), r.block = true →
      wrappedStreamCall true (.ok (some r)) context inner =
        .error ("LLM call blocked by plugin: "
          ++ r.blockReason.getD "blocked by before_llm_call hook") ∧
      (r.blockReason = none →
        wrappedStreamCall true (.ok (some r)) context inner =
          .error "LLM call blocked by plugin: blocked by before_llm_call hook") := by
  intro α context inner r hblock
  constructor
  · simp [wrappedStreamCall, hblock]
  · intro hnone
    simp [wrappedStreamCall, hblock, hnone]

/-- Witness for C7: a hook result `{block:true, blockReason:"policy"}` at a
concrete context surfaces `"LLM call blocked by plugin: policy"`. -/
theorem before_llm_call_block_short_circuits_witness :
    wrappedStreamCall true
        (.ok (some { block := true, blockReason := some "policy" }))
        {} (fun _ : LlmContext => (0 : Nat)) =
      .error "LLM call blocked by plugin: policy" := by
  have h := before_llm_call_block_short_circuits {} (fun _ : LlmContext => (0 : Nat))
    { block := true, blockReason := some "policy" } rfl
  simpa using h.1

/-! ## Claims C1, C2 -/

/-- C1: `run(jobId, mode)` rejects a job whose `runningAtMs` is set with
`{ran:false, reason:"already-running"}` and leaves the store untouched;
when `runningAtMs` is unset and the job is due (or forced), it reserves the
run by persisting `runningAtMs = now` under the cron lock; consequently of
two `run` calls whose locked preparation phases serialize on the same job,
exactly one reserves the execution and the other is rejected as
already-running. -/
theorem cron_run_single_fire :
    (∀ (jobs : List CronJob) (id : String) (now : Nat) (forced : Bool) (job : CronJob),
      findJob jobs id = some job → job.state.runningAtMs.isSome = true →
      prepareRun jobs id now forced = some (jobs, .alreadyRunning)) ∧
    (∀ (jobs : List CronJob) (id : String) (now : Nat) (forced : Bool) (job : CronJob),
      findJob jobs id = some job → job.state.runningAtMs = none →
      isJobDue job now forced = true →
      ∃ jobs2 job2, prepareRun jobs id now forced = some (jobs2, .reserved job2 now) ∧
        job2.state.runningAtMs = some now ∧ findJob jobs2 id = some job2) ∧
    (∀ (jobs : List CronJob) (id : String) (now : Nat) (forced : Bool)
        (jobs2 : List CronJob) (job2 : CronJob) (startedAt : Nat),
      prepareRun jobs id now forced = some (jobs2, .reserved job2 startedAt) →
      ∀ (now2 : Nat) (forced2 : Bool),
        prepareRun jobs2 id now2 forced2 = some (jobs2, .alreadyRunning)) := by
  have hfindId : ∀ (jobs : List CronJob) (id : String) (job : CronJob),
      findJob jobs id = some job → job.id = id := by
    intro jobs id job h
    have := List.find?_some h
    simpa using this
  refine ⟨?_, ?_, ?_⟩
  · intro jobs id now forced job hfind hrun
    simp [prepareRun, hfind, hrun]
  · intro jobs id now forced job hfind hrun hdue
    have hnone : job.state.runningAtMs.isSome = false := by simp [hrun]
    refine ⟨updateJob jobs id
      { job with state := { job.state with runningAtMs := some now, lastError := none } },
      { job with state := { job.state with runningAtMs := some now, lastError := none } },
      ?_, rfl, ?_⟩
    · simp [prepareRun, hfind, hnone, hdue]
    · exact findJob_updateJob jobs id _ (hfindId jobs id job hfind) (by simp [hfind])
  · intro jobs id now forced jobs2 job2 startedAt hprep now2 forced2
    -- unfold the first preparation to learn the shape of `jobs2` and `job2`
    rcases hfind : findJob jobs id with _ | job
    · simp [prepareRun, hfind] at hprep
    · by_cases hrun : job.state.runningAtMs.isSome = true
      · simp [prepareRun, hfind, hrun] at hprep
      · have hrun2 : job.state.runningAtMs.isSome = false := by
          simpa using hrun
        by_cases hdue : isJobDue job now forced = true
        · have hshape := hprep
          simp [prepareRun, hfind, hrun2, hdue] at hshape
          obtain ⟨hjobs2, hjob2, _⟩ := hshape
          have hfind2 : findJob jobs2 id = some job2 := by
            rw [← hjobs2, ← hjob2]
            exact findJob_updateJob jobs id _ (hfindId jobs id job hfind) (by simp [hfind])
          have hrunning2 : job2.state.runningAtMs.isSome = true := by
            rw [← hjob2]
            simp
          simp [prepareRun, hfind2, hrunning2]
        · have hdue2 : isJobDue job now forced = false := by simpa using hdue
          simp [prepareRun, hfind, hrun2, hdue2] at hprep

/-- Witness for C1: a concrete running job is rejected as already-running,
and a concrete idle due job is reserved. -/
theorem cron_run_single_fire_witness :
    prepareRun
        [{ id := "j1", schedule := .every 60000 60000,
           state := { nextRunAtMs := some 60000, runningAtMs := some 5 } }]
        "j1" 60000 false
      = some ([{ id := "j1", schedule := .every 60000 60000,
                 state := { nextRunAtMs := some 60000, runningAtMs := some 5 } }],
          .alreadyRunning) :=
  cron_run_single_fire.1 _ "j1" 60000 false
    { id := "j1", schedule := .every 60000 60000,
      state := { nextRunAtMs := some 60000, runningAtMs := some 5 } }
    (by simp [findJob]) rfl

/-- C2: `recomputeNextRuns` is a no-op on an enabled job with
`lastRunAtMs < nextRunAtMs ≤ now` and `runningAtMs` unset, and advances
`nextRunAtMs` to the next occurrence (`computeJobNextRunAtMs`) once the job
has executed for the slot or is currently running. -/
theorem recompute_preserves_due_jobs :
    (∀ (job : CronJob) (now t : Nat), job.enabled = true →
      job.state.nextRunAtMs = some t → t ≤ now →
      job.state.runningAtMs = none →
      (∀ l, job.state.lastRunAtMs = some l → l < t) →
      recomputeNextRunsJob job now = job) ∧
    (∀ (job : CronJob) (now : Nat), job.enabled = true →
      ((∃ t l, job.state.nextRunAtMs = some t ∧ job.state.lastRunAtMs = some l ∧ t ≤ l) ∨
        job.state.runningAtMs.isSome = true) →
      (recomputeNextRunsJob job now).state.nextRunAtMs = computeJobNextRunAtMs job now) ∧
    (∀ (jobs : List CronJob) (now : Nat) (job : CronJob), job ∈ jobs →
      recomputeNextRunsJob job now = job → job ∈ recomputeNextRuns jobs now) := by
  refine ⟨?_, ?_, ?_⟩
  · intro job now t hen hnext hle hrun hlast
    unfold recomputeNextRunsJob
    rw [hen]
    simp only [Bool.not_true, Bool.false_eq_true, if_false]
    rw [hnext]
    have hpre : (decide (t ≤ now) && job.state.runningAtMs.isNone &&
        (match job.state.lastRunAtMs with
         | some l => decide (l < t)
         | none => true)) = true := by
      rcases hl : job.state.lastRunAtMs with _ | l
      · simp [hle, hrun]
      · simp [hle, hrun, hlast l hl]
    simp [hpre]
  · intro job now hen hexec
    unfold recomputeNextRunsJob
    rw [hen]
    simp only [Bool.not_true, Bool.false_eq_true, if_false]
    rcases hexec with ⟨t, l, hnext, hlast, htl⟩ | hrun
    · rw [hnext, hlast]
      have : ¬ l < t := by omega
      simp [this]
    · have hrn : job.state.runningAtMs.isNone = false := by
        rcases h : job.state.runningAtMs with _ | v
        · rw [h] at hrun; simp at hrun
        · simp [h]
      rcases hnext : job.state.nextRunAtMs with _ | t
      · simp
      · simp [hrn]
  · intro jobs now job hmem hfix
    have : recomputeNextRunsJob job now ∈ recomputeNextRuns jobs now :=
      List.mem_map_of_mem _ hmem
    rwa [hfix] at this

/-- Witness for C2: the regression test's job (`every` 60s anchored at
60s, never executed, `nextRunAtMs = 60000`) is untouched at `now = 60000`,
and after executing for the slot (`lastRunAtMs = 60000`) it advances to
120000 at `now = 60100`. -/
theorem recompute_preserves_due_jobs_witness :
    recomputeNextRunsJob
        { id := "test-job-1", schedule := .every 60000 60000,
          state := { nextRunAtMs := some 60000 } } 60000
      = { id := "test-job-1", schedule := .every 60000 60000,
          state := { nextRunAtMs := some 60000 } } ∧
    (recomputeNextRunsJob
        { id := "test-job-1", schedule := .every 60000 60000,
          state := { nextRunAtMs := some 60000, lastRunAtMs := some 60000 } }
        60100).state.nextRunAtMs = some 120000 := by
  constructor
  · exact recompute_preserves_due_jobs.1 _ 60000 60000 rfl rfl (by norm_num) rfl
      (by intro l hl; cases hl)
  · have h := recompute_preserves_due_jobs.2.1
      { id := "test-job-1", schedule := .every 60000 60000,
        state := { nextRunAtMs := some 60000, lastRunAtMs := some 60000 } }
      60100 rfl (Or.inl ⟨60000, 60000, rfl, rfl, le_refl _⟩)
    rw [h]
    norm_num [computeJobNextRunAtMs]

theorem blockStreamStep_inv (s : BlockStreamState) (delivered : List PayloadKey)
    (e : BlockStreamEvent) (h : StreamInv s delivered) :
    StreamInv (blockStreamStep s e).1 (delivered ++ ((blockStreamStep s e).2.2).toList) := by
  obtain ⟨hcount, hmem, hnd, hdisj, hdid⟩ := h
  cases e with
  | blockStart p =>
      by_cases hc : (s.streamedKeys.contains (buildPayloadKey p)
          || s.pendingKeys.contains (buildPayloadKey p)) = true
      · have hred : blockStreamStep s (.blockStart p) = (s, none, none) := by
          simp only [blockStreamStep]
          rw [if_pos hc]
        rw [hred]
        simp only [Option.toList_none, List.append_nil]
        exact ⟨hcount, hmem, hnd, hdisj, hdid⟩
      · have hcb : (s.streamedKeys.contains (buildPayloadKey p)
            || s.pendingKeys.contains (buildPayloadKey p)) = false := by
          rwa [Bool.not_eq_true] at hc
        have hcb2 : buildPayloadKey p ∉ s.streamedKeys ∧ buildPayloadKey p ∉ s.pendingKeys := by
          simpa using hcb
        have hcs : buildPayloadKey p ∉ s.streamedKeys := hcb2.1
        have hcp : buildPayloadKey p ∉ s.pendingKeys := hcb2.2
        have hred : blockStreamStep s (.blockStart p) =
            ({ s with pendingKeys := buildPayloadKey p :: s.pendingKeys }, some p, none) := by
          simp only [blockStreamStep]
          rw [if_neg hc]
        rw [hred]
        simp only [Option.toList_none, List.append_nil]
        refine ⟨hcount, hmem, ?_, ?_, hdid⟩
        · exact List.nodup_cons.2 ⟨hcp, hnd⟩
        · intro k hk
          rcases List.mem_cons.1 hk with hk | hk
          · exact hk ▸ hcs
          · exact hdisj k hk
  | blockSettle k success =>
      by_cases hp : s.pendingKeys.contains k = true
      · have hpmem : k ∈ s.pendingKeys := List.mem_of_elem_eq_true hp
        cases success with
        | true =>
            have hred : blockStreamStep s (.blockSettle k true) =
                ({ streamedKeys := k :: s.streamedKeys,
                   pendingKeys := s.pendingKeys.erase k,
                   didStreamBlockReply := true }, none, some k) := by
              simp only [blockStreamStep]
              rw [if_pos hp]
              simp
            rw [hred]
            simp only [Option.toList_some]
            have hknotstreamed : k ∉ s.streamedKeys := hdisj k hpmem
            have hknotdel : k ∉ delivered := fun hkd => hknotstreamed ((hmem k).1 hkd)
            refine ⟨?_, ?_, ?_, ?_, ?_⟩
            · intro j
              by_cases hj : j = k
              · subst hj
                have hz : delivered.count j = 0 := List.count_eq_zero.2 hknotdel
                simp [List.count_append, hz]
              · have hz : ([k].count j) = 0 := List.count_eq_zero.2 (by simp [hj])
                have := hcount j
                simp [List.count_append, hz]
                omega
            · intro j
              have := hmem j
              simp only [List.mem_append, List.mem_singleton, List.mem_cons]
              tauto
            · exact hnd.erase k
            · intro j hj
              have hj2 := (hnd.mem_erase_iff).1 hj
              intro hcon
              rcases List.mem_cons.1 hcon with hh | hh
              · exact hj2.1 hh
              · exact hdisj j hj2.2 hh
            · simp
        | false =>
            have hred : blockStreamStep s (.blockSettle k false) =
                ({ s with pendingKeys := s.pendingKeys.erase k }, none, none) := by
              simp only [blockStreamStep]
              rw [if_pos hp]
              simp
            rw [hred]
            simp only [Option.toList_none, List.append_nil]
            refine ⟨hcount, hmem, hnd.erase k, ?_, hdid⟩
            intro j hj
            exact hdisj j (List.erase_subset _ _ hj)
      · have hred : blockStreamStep s (.blockSettle k success) = (s, none, none) := by
          simp only [blockStreamStep]
          rw [if_neg hp]
        rw [hred]
        simp only [Option.toList_none, List.append_nil]
        exact ⟨hcount, hmem, hnd, hdisj, hdid⟩

theorem runBlockStream_inv (events : List BlockStreamEvent) :
    ∀ (s : BlockStreamState) (delivered : List PayloadKey), StreamInv s delivered →
      StreamInv (runBlockStream s events).1
        (delivered ++ (runBlockStream s events).2.2) := by
  induction events with
  | nil =>
      intro s delivered h
      simpa [runBlockStream] using h
  | cons e rest ih =>
      intro s delivered h
      have hstep := blockStreamStep_inv s delivered e h
      rcases hx : blockStreamStep s e with ⟨s2, invoked, del⟩
      rw [hx] at hstep
      have hrest := ih s2 (delivered ++ del.toList) hstep
      rcases hy : runBlockStream s2 rest with ⟨s3, invs, dels⟩
      rw [hy] at hrest
      simp only [runBlockStream, hx, hy]
      simpa [List.append_assoc] using hrest

/-! ## Claims C4, C10 -/

/-- C4: with block streaming enabled, if at least one `onBlockReply`
payload was delivered during the turn then the final payload set handed to
delivery is empty (`shouldDropFinalPayloads`); if none was delivered the
final set passes through unchanged; and in every case a final payload whose
fingerprint equals a streamed block's fingerprint is removed. -/
theorem block_streaming_final_suppression :
    ∀ (events : List BlockStreamEvent) (replyTaggedPayloads : List ReplyPayload),
      ((runBlockStream {} events).2.2 ≠ [] →
        filterFinalPayloads true (runBlockStream {} events).1.didStreamBlockReply
          (runBlockStream {} events).1.streamedKeys replyTaggedPayloads = []) ∧
      ((runBlockStream {} events).2.2 = [] →
        filterFinalPayloads true (runBlockStream {} events).1.didStreamBlockReply
          (runBlockStream {} events).1.streamedKeys replyTaggedPayloads
          = replyTaggedPayloads) ∧
      (∀ p, p ∈ replyTaggedPayloads →
        (runBlockStream {} events).1.streamedKeys.contains (buildPayloadKey p) = true →
        p ∉ filterFinalPayloads true (runBlockStream {} events).1.didStreamBlockReply
          (runBlockStream {} events).1.streamedKeys replyTaggedPayloads) := by
  intro events replyTaggedPayloads
  have hinit : StreamInv {} ([] : List PayloadKey) := by
    refine ⟨by simp, by simp, List.nodup_nil, by simp, by simp⟩
  have hinv := runBlockStream_inv events {} [] hinit
  rw [List.nil_append] at hinv
  obtain ⟨hcount, hmem, hnd, hdisj, hflag⟩ := hinv
  refine ⟨?_, ?_, ?_⟩
  · intro hne
    have hdid : (runBlockStream {} events).1.didStreamBlockReply = true := hflag.2 hne
    simp [filterFinalPayloads, hdid]
  · intro heq
    have hdid : (runBlockStream {} events).1.didStreamBlockReply = false := by
      cases hb : (runBlockStream {} events).1.didStreamBlockReply
      · rfl
      · exact absurd heq (hflag.1 hb)
    have hempty : (runBlockStream {} events).1.streamedKeys = [] := by
      apply List.eq_nil_iff_forall_not_mem.2
      intro k hk
      have : k ∈ (runBlockStream {} events).2.2 := (hmem k).2 hk
      rw [heq] at this
      exact absurd this (List.not_mem_nil k)
    simp [filterFinalPayloads, hdid, hempty]
  · intro p _ hcont hmem2
    by_cases hdid : (runBlockStream {} events).1.didStreamBlockReply = true
    · rw [filterFinalPayloads] at hmem2
      simp only [hdid, Bool.and_true, if_true] at hmem2
      exact absurd hmem2 (List.not_mem_nil p)
    · have hdid2 : (runBlockStream {} events).1.didStreamBlockReply = false := by
        cases hb : (runBlockStream {} events).1.didStreamBlockReply
        · rfl
        · exact absurd hb hdid
      rw [filterFinalPayloads] at hmem2
      simp only [hdid2, Bool.and_false, Bool.false_eq_true, if_false, if_true] at hmem2
      have := (List.mem_filter.1 hmem2).2
      rw [hcont] at this
      simp at this

/-- Witness for C4: after one successful block delivery of `"hi"`, the
final payload set is fully suppressed. -/
theorem block_streaming_final_suppression_witness :
    filterFinalPayloads true
        (runBlockStream {}
          [.blockStart { text := some "hi" },
           .blockSettle (buildPayloadKey { text := some "hi" }) true]).1.didStreamBlockReply
        (runBlockStream {}
          [.blockStart { text := some "hi" },
           .blockSettle (buildPayloadKey { text := some "hi" }) true]).1.streamedKeys
        [{ text := some "hi" }, { text := some "extra" }] = [] :=
  (block_streaming_final_suppression
      [.blockStart { text := some "hi" },
       .blockSettle (buildPayloadKey { text := some "hi" }) true]
      [{ text := some "hi" }, { text := some "extra" }]).1 (by decide)

/-- C10: within one turn no block fingerprint is ever delivered twice (the
successful-delivery list contains each key at most once), and a block whose
fingerprint is already streamed or still in flight is dropped before the
`onBlockReply` callback is invoked (the step neither changes state nor
hands out a payload). -/
theorem block_reply_no_duplicate_delivery :
    (∀ (events : List BlockStreamEvent) (k : PayloadKey),
      ((runBlockStream {} events).2.2).count k ≤ 1) ∧
    (∀ (s : BlockStreamState) (p : ReplyPayload),
      (buildPayloadKey p ∈ s.streamedKeys ∨ buildPayloadKey p ∈ s.pendingKeys) →
      blockStreamStep s (.blockStart p) = (s, none, none)) := by
  constructor
  · intro events k
    have hinit : StreamInv {} ([] : List PayloadKey) := by
      refine ⟨by simp, by simp, List.nodup_nil, by simp, by simp⟩
    have hinv := runBlockStream_inv events {} [] hinit
    rw [List.nil_append] at hinv
    exact hinv.1 k
  · intro s p hin
    have hc : (s.streamedKeys.contains (buildPayloadKey p)
        || s.pendingKeys.contains (buildPayloadKey p)) = true := by
      rcases hin with hin | hin
      · have h1 : s.streamedKeys.contains (buildPayloadKey p) = true :=
          List.elem_eq_true_of_mem hin
        rw [h1, Bool.true_or]
      · have h1 : s.pendingKeys.contains (buildPayloadKey p) = true :=
          List.elem_eq_true_of_mem hin
        rw [h1, Bool.or_true]
    simp only [blockStreamStep]
    rw [if_pos hc]

/-- Witness for C10: a block whose fingerprint is already streamed is
dropped without invoking the callback. -/
theorem block_reply_no_duplicate_delivery_witness :
    blockStreamStep
        { streamedKeys := [buildPayloadKey { text := some "hi" }] }
        (.blockStart { text := some "hi" })
      = ({ streamedKeys := [buildPayloadKey { text := some "hi" }] }, none, none) :=
  block_reply_no_duplicate_delivery.2 _ { text := some "hi" } (Or.inl (by simp))

/-! ## Claim C3 -/

/-- C3 (counterexample): it is NOT the case that `exec.denied` is emitted
iff the policy engine denied: with the policy allowing, no mac-app exec
host, and `needsScreenRecording` set, the handler emits
`exec.denied` (`"permission:screenRecording"`) although `policy.allowed`
is `true`. -/
theorem system_run_denied_iff_counterexample :
    ¬ (∀ (commandOk : Bool) (policy : SystemRunPolicyDecision)
        (preferMacAppExecHost : Bool) (macOutcome : MacExecHostOutcome)
        (execHostEnforced execHostFallbackAllowed needsScreenRecording : Bool)
        (runSuccess : Option Bool),
        ((∃ r, ExecEvent.denied r ∈ (systemRunEvents commandOk policy
            preferMacAppExecHost macOutcome execHostEnforced
            execHostFallbackAllowed needsScreenRecording runSuccess).1) ↔
          policy.allowed = false)) := by
  intro h
  have h2 := h true { allowed := true } false .unreachable false true true (some true)
  have h3 : ExecEvent.denied "permission:screenRecording" ∈
      (systemRunEvents true { allowed := true } false .unreachable false true true
        (some true)).1 := by
    simp [systemRunEvents]
  have h4 := h2.1 ⟨_, h3⟩
  simp at h4

/-- C3 (amended): `exec.denied` is emitted for a policy denial, and
additionally when mac-app exec-host delegation finds the host unreachable
(while enforced or with fallback disallowed) or refused, or when the
command needs the missing screen-recording permission; a policy-allowed
command that reaches local execution emits exactly `exec.finished` with the
run's `success` value (also on failure), and no event list ever contains
both `exec.finished` and `exec.denied`. -/
theorem system_run_denied_sources
    (commandOk : Bool) (policy : SystemRunPolicyDecision)
    (preferMacAppExecHost : Bool) (macOutcome : MacExecHostOutcome)
    (execHostEnforced execHostFallbackAllowed needsScreenRecording : Bool)
    (runSuccess : Option Bool) :
    (commandOk = true → policy.allowed = false →
      (systemRunEvents commandOk policy preferMacAppExecHost macOutcome
        execHostEnforced execHostFallbackAllowed needsScreenRecording
        runSuccess).1 = [.denied policy.eventReason]) ∧
    (∀ r, ExecEvent.denied r ∈ (systemRunEvents commandOk policy
        preferMacAppExecHost macOutcome execHostEnforced
        execHostFallbackAllowed needsScreenRecording runSuccess).1 →
      policy.allowed = false ∨
      (preferMacAppExecHost = true ∧ macOutcome = .unreachable ∧
        (execHostEnforced = true ∨ execHostFallbackAllowed = false) ∧
        r = "companion-unavailable") ∨
      (preferMacAppExecHost = true ∧ ∃ reason message,
        macOutcome = .refused reason message ∧ r = reason.getD "approval-required") ∨
      (needsScreenRecording = true ∧ r = "permission:screenRecording")) ∧
    (commandOk = true → policy.allowed = true → preferMacAppExecHost = false →
      needsScreenRecording = false →
      (systemRunEvents commandOk policy preferMacAppExecHost macOutcome
        execHostEnforced execHostFallbackAllowed needsScreenRecording
        runSuccess).1 = [.finished runSuccess]) ∧
    (∀ s, ExecEvent.finished s ∈ (systemRunEvents commandOk policy
        preferMacAppExecHost macOutcome execHostEnforced
        execHostFallbackAllowed needsScreenRecording runSuccess).1 →
      ∀ r, ExecEvent.denied r ∉ (systemRunEvents commandOk policy
        preferMacAppExecHost macOutcome execHostEnforced
        execHostFallbackAllowed needsScreenRecording runSuccess).1) := by
  obtain ⟨allowed, eventReason, errorMessage⟩ := policy
  refine ⟨?_, ?_, ?_, ?_⟩
  · intro hco hpa
    simp only at hpa
    subst hco hpa
    simp [systemRunEvents]
  · intro r hr
    cases allowed with
    | false => exact Or.inl rfl
    | true =>
        cases commandOk with
        | false => simp [systemRunEvents] at hr
        | true =>
            cases preferMacAppExecHost with
            | false =>
                cases needsScreenRecording with
                | false => simp [systemRunEvents] at hr
                | true =>
                    simp [systemRunEvents] at hr
                    exact Or.inr (Or.inr (Or.inr ⟨rfl, hr⟩))
            | true =>
                rcases macOutcome with _ | ⟨reason, message⟩ | s1
                · cases execHostEnforced with
                  | false =>
                      cases execHostFallbackAllowed with
                      | false =>
                          simp [systemRunEvents] at hr
                          exact Or.inr (Or.inl ⟨rfl, rfl, Or.inr rfl, hr⟩)
                      | true =>
                          cases needsScreenRecording with
                          | false => simp [systemRunEvents] at hr
                          | true =>
                              simp [systemRunEvents] at hr
                              exact Or.inr (Or.inr (Or.inr ⟨rfl, hr⟩))
                  | true =>
                      simp [systemRunEvents] at hr
                      exact Or.inr (Or.inl ⟨rfl, rfl, Or.inl rfl, hr⟩)
                · simp [systemRunEvents] at hr
                  exact Or.inr (Or.inr (Or.inl ⟨rfl, reason, message, rfl, hr⟩))
                · simp [systemRunEvents] at hr
  · intro hco hpa hmac hsr
    simp only at hpa
    subst hco hpa hmac hsr
    simp [systemRunEvents]
  · intro s hs r hd
    cases allowed <;> cases commandOk <;> cases preferMacAppExecHost <;>
      cases needsScreenRecording <;> cases execHostEnforced <;>
      cases execHostFallbackAllowed <;>
      rcases macOutcome with _ | ⟨reason, message⟩ | s1 <;>
      simp [systemRunEvents] at hs hd

/-- Witness for the amended C3: a policy-allowed command whose local
execution fails emits `exec.finished` with `success=false` and no
`exec.denied`. -/
theorem system_run_denied_sources_witness :
    (systemRunEvents true { allowed := true } false .unreachable false true false
        (some false)).1 = [.finished (some false)] :=
  (system_run_denied_sources true { allowed := true } false .unreachable false true
    false (some false)).2.2.1 rfl rfl rfl rfl

/-! ## Claim C5 -/

theorem unwrapDispatchGo_succ (n : Nat) (argv : List String) :
    unwrapDispatchGo (n + 1) argv =
      (match unwrapOnceStep argv with
        | some next => unwrapDispatchGo n next
        | none => argv) := by
  rcases h : unwrapKnownDispatchWrapperInvocation argv with _ | w | ⟨w, a⟩
  · simp [unwrapDispatchGo, unwrapOnceStep, h]
  · simp [unwrapDispatchGo, unwrapOnceStep, h]
  · by_cases ha : a = []
    · simp [unwrapDispatchGo, unwrapOnceStep, h, ha]
    · simp [unwrapDispatchGo, unwrapOnceStep, h, ha]

theorem unwrapDispatchGo_iter (fuel : Nat) :
    ∀ argv, ∃ k ≤ fuel, unwrapIterExact k argv = some (unwrapDispatchGo fuel argv) := by
  induction fuel with
  | zero => exact fun argv => ⟨0, le_refl 0, rfl⟩
  | succ n ih =>
      intro argv
      rcases hstep : unwrapOnceStep argv with _ | next
      · refine ⟨0, Nat.zero_le _, ?_⟩
        rw [unwrapDispatchGo_succ, hstep]
        rfl
      · obtain ⟨k, hk, hiter⟩ := ih next
        refine ⟨k + 1, Nat.succ_le_succ hk, ?_⟩
        rw [unwrapDispatchGo_succ, hstep]
        simp only [unwrapIterExact, hstep]
        exact hiter

/-- C5: the policy engine's dispatch-wrapper unwrapping (i) blocks
`chrt|doas|ionice|setsid|sudo|taskset` outright, whatever their arguments;
(ii) treats `env|nice|nohup|stdbuf|timeout` as dispatch wrappers whose scan
either strips them (consuming value-taking flags) or — when the invocation
is ambiguous — blocks; with concrete stripped and ambiguous instances; and
(iii) repeated unwrapping performs at most `MAX_DISPATCH_WRAPPER_DEPTH = 4`
successful unwrap steps, so a fifth nesting level survives. -/
theorem dispatch_wrapper_unwrapping :
    (∀ argv : List String, strTrim (argv.head?.getD "") ≠ "" →
      (normalizeExecutableToken (strTrim (argv.head?.getD "")) = "chrt" ∨
        normalizeExecutableToken (strTrim (argv.head?.getD "")) = "doas" ∨
        normalizeExecutableToken (strTrim (argv.head?.getD "")) = "ionice" ∨
        normalizeExecutableToken (strTrim (argv.head?.getD "")) = "setsid" ∨
        normalizeExecutableToken (strTrim (argv.head?.getD "")) = "sudo" ∨
        normalizeExecutableToken (strTrim (argv.head?.getD "")) = "taskset") →
      unwrapKnownDispatchWrapperInvocation argv =
        .blocked (normalizeExecutableToken (strTrim (argv.head?.getD "")))) ∧
    (∀ argv : List String, strTrim (argv.head?.getD "") ≠ "" →
      normalizeExecutableToken (strTrim (argv.head?.getD "")) = "env" →
      unwrapKnownDispatchWrapperInvocation argv =
        unwrapDispatchWrapperFrom "env" (unwrapEnvInvocation argv)) ∧
    (∀ argv : List String, strTrim (argv.head?.getD "") ≠ "" →
      normalizeExecutableToken (strTrim (argv.head?.getD "")) = "nice" →
      unwrapKnownDispatchWrapperInvocation argv =
        unwrapDispatchWrapperFrom "nice" (unwrapNiceInvocation argv)) ∧
    (∀ argv : List String, strTrim (argv.head?.getD "") ≠ "" →
      normalizeExecutableToken (strTrim (argv.head?.getD "")) = "nohup" →
      unwrapKnownDispatchWrapperInvocation argv =
        unwrapDispatchWrapperFrom "nohup" (unwrapNohupInvocation argv)) ∧
    (∀ argv : List String, strTrim (argv.head?.getD "") ≠ "" →
      normalizeExecutableToken (strTrim (argv.head?.getD "")) = "stdbuf" →
      unwrapKnownDispatchWrapperInvocation argv =
        unwrapDispatchWrapperFrom "stdbuf" (unwrapStdbufInvocation argv)) ∧
    (∀ argv : List String, strTrim (argv.head?.getD "") ≠ "" →
      normalizeExecutableToken (strTrim (argv.head?.getD "")) = "timeout" →
      unwrapKnownDispatchWrapperInvocation argv =
        unwrapDispatchWrapperFrom "timeout" (unwrapTimeoutInvocation argv)) ∧
    unwrapKnownDispatchWrapperInvocation ["env", "-u", "X", "FOO=bar", "ls", "-la"]
      = .unwrapped "env" ["ls", "-la"] ∧
    unwrapKnownDispatchWrapperInvocation ["timeout", "-k", "5", "10", "sh"]
      = .unwrapped "timeout" ["sh"] ∧
    unwrapKnownDispatchWrapperInvocation ["nice", "-n", "5", "cmd", "arg"]
      = .unwrapped "nice" ["cmd", "arg"] ∧
    unwrapKnownDispatchWrapperInvocation ["stdbuf", "-o", "0", "cat"]
      = .unwrapped "stdbuf" ["cat"] ∧
    unwrapKnownDispatchWrapperInvocation ["nohup", "make"]
      = .unwrapped "nohup" ["make"] ∧
    unwrapKnownDispatchWrapperInvocation ["env", "-u"] = .blocked "env" ∧
    (∀ argv : List String, ∃ k ≤ MAX_DISPATCH_WRAPPER_DEPTH,
      unwrapIterExact k argv = some (unwrapDispatchWrappersForResolution argv)) ∧
    unwrapDispatchWrappersForResolution
        ["nohup", "nohup", "nohup", "nohup", "nohup", "ls"] = ["nohup", "ls"] := by
  have hstep : ∀ (argv : List String), strTrim (argv.head?.getD "") ≠ "" →
      unwrapKnownDispatchWrapperInvocation argv =
        dispatchByWrapper (normalizeExecutableToken (strTrim (argv.head?.getD ""))) argv := by
    intro argv h
    simp only [unwrapKnownDispatchWrapperInvocation]
    rw [if_neg h]
  refine ⟨?_, ?_, ?_, ?_, ?_, ?_, by decide, by decide, by decide, by decide, by decide,
    by decide, ?_, by decide⟩
  · intro argv h hw
    rw [hstep argv h]
    rcases hw with h1 | h1 | h1 | h1 | h1 | h1 <;> rw [h1] <;> rfl
  · intro argv h h1
    rw [hstep argv h, h1]
    rfl
  · intro argv h h1
    rw [hstep argv h, h1]
    rfl
  · intro argv h h1
    rw [hstep argv h, h1]
    rfl
  · intro argv h h1
    rw [hstep argv h, h1]
    rfl
  · intro argv h h1
    rw [hstep argv h, h1]
    rfl
  · intro argv
    exact unwrapDispatchGo_iter MAX_DISPATCH_WRAPPER_DEPTH argv

/-- Witness for C5: `sudo` is blocked at a concrete invocation. -/
theorem dispatch_wrapper_unwrapping_witness :
    unwrapKnownDispatchWrapperInvocation ["sudo", "echo", "x"] = .blocked "sudo" := by
  have h := dispatch_wrapper_unwrapping.1 ["sudo", "echo", "x"] (by decide)
    (Or.inr (Or.inr (Or.inr (Or.inr (Or.inl (by decide))))))
  have e : normalizeExecutableToken
      (strTrim ((["sudo", "echo", "x"] : List String).head?.getD "")) = "sudo" := by decide
  rw [e] at h
  exact h

/-! ## Claim C8 -/

theorem resolveDirState_available_stat (fs : FsModel) (uid : Option Nat) (p : String)
    (h : resolveDirState fs uid p true = .available) :
    ∃ st, fs.lstat p = .stat st ∧ isTrustedPreferredDir uid st = true := by
  unfold resolveDirState at h
  split at h
  · exact DirTrustState.noConfusion h
  · exact DirTrustState.noConfusion h
  · rename_i st heq
    split_ifs at h with h1 h2
    · have ht : isTrustedPreferredDir uid st = true := by
        simpa using h1
      exact ⟨st, heq, ht⟩
    · exact absurd rfl h2

theorem ensureTrustedFallbackDir_ok (fs : FsModel) (uid : Option Nat) (tmpdir : String)
    (fs2 : FsModel) (p : String)
    (h : ensureTrustedFallbackDir fs uid tmpdir = .ok (fs2, p)) :
    p = fallbackTmpPath tmpdir uid ∧ resolveDirState fs2 uid p true = .available := by
  simp only [ensureTrustedFallbackDir] at h
  split at h
  · rename_i hr
    simp only [Except.ok.injEq, Prod.mk.injEq] at h
    obtain ⟨hfs, hp⟩ := h
    subst hfs hp
    exact ⟨rfl, hr⟩
  · exact Except.noConfusion h
  · split at h
    · exact Except.noConfusion h
    · rename_i fs3 hm
      split_ifs at h with hc
      simp only [Except.ok.injEq, Prod.mk.injEq] at h
      obtain ⟨hfs, hp⟩ := h
      subst hfs hp
      exact ⟨rfl, hc⟩

theorem resolvePreferredOpenClawTmpDir_ok (fs : FsModel) (uid : Option Nat)
    (tmpdir : String) (fs2 : FsModel) (p : String)
    (h : resolvePreferredOpenClawTmpDir fs uid tmpdir = .ok (fs2, p)) :
    (p = POSIX_OPENCLAW_TMP_DIR ∨ p = fallbackTmpPath tmpdir uid) ∧
      resolveDirState fs2 uid p true = .available := by
  unfold resolvePreferredOpenClawTmpDir at h
  split at h
  · rename_i hr
    simp only [Except.ok.injEq, Prod.mk.injEq] at h
    obtain ⟨hfs, hp⟩ := h
    subst hfs hp
    exact ⟨Or.inl rfl, hr⟩
  · obtain ⟨hp, hav⟩ := ensureTrustedFallbackDir_ok fs uid tmpdir fs2 p h
    exact ⟨Or.inr hp, hav⟩
  · split at h
    · split at h
      · obtain ⟨hp, hav⟩ := ensureTrustedFallbackDir_ok fs uid tmpdir fs2 p h
        exact ⟨Or.inr hp, hav⟩
      · rename_i fs3 hm
        split_ifs at h with hc
        · simp only [Except.ok.injEq, Prod.mk.injEq] at h
          obtain ⟨hfs, hp⟩ := h
          subst hfs hp
          exact ⟨Or.inl rfl, hc⟩
        · split at h
          · rename_i r he
            rcases r with ⟨fs4, p4⟩
            simp only [Except.ok.injEq, Prod.mk.injEq] at h
            obtain ⟨hfs, hp⟩ := h
            rw [hfs, hp] at he
            obtain ⟨hp2, hav⟩ := ensureTrustedFallbackDir_ok fs3 uid tmpdir fs2 p he
            exact ⟨Or.inr hp2, hav⟩
          · obtain ⟨hp, hav⟩ := ensureTrustedFallbackDir_ok fs3 uid tmpdir fs2 p h
            exact ⟨Or.inr hp, hav⟩
    · obtain ⟨hp, hav⟩ := ensureTrustedFallbackDir_ok fs uid tmpdir fs2 p h
      exact ⟨Or.inr hp, hav⟩

theorem isSecureDirForUser_fields (u : Nat) (st : DirStat)
    (h : isSecureDirForUser (some u) st = true) :
    (∀ v, st.uid = some v → v = u) ∧ (∀ m, st.mode = some m → m &&& 18 = 0) := by
  simp only [isSecureDirForUser] at h
  split_ifs at h with h1 h2
  constructor
  · intro v hv
    rw [hv] at h1
    simpa using h1
  · intro m hm
    rw [hm] at h2
    simpa using h2

/-- C8: every directory returned by `resolvePreferredOpenClawTmpDir` is
either `/tmp/openclaw` or the uid-suffixed `$TMPDIR` fallback, and at the
moment of return it lstats as a real directory, not a symlink, owned by
the current uid when ownership is reported and with no group/other write
bits when a mode is reported; and when `/tmp/openclaw` is untrusted and the
fallback also fails the trust checks, the function throws instead of
returning a directory. -/
theorem tmp_dir_trust_checks (fs : FsModel) (u : Nat) (tmpdir : String) :
    (∀ (fs2 : FsModel) (p : String),
      resolvePreferredOpenClawTmpDir fs (some u) tmpdir = .ok (fs2, p) →
      (p = POSIX_OPENCLAW_TMP_DIR ∨ p = fallbackTmpPath tmpdir (some u)) ∧
      ∃ st, fs2.lstat p = .stat st ∧ st.isDirectory = true ∧
        st.isSymbolicLink = false ∧
        (∀ v, st.uid = some v → v = u) ∧
        (∀ m, st.mode = some m → m &&& 18 = 0)) ∧
    (resolveDirState fs (some u) POSIX_OPENCLAW_TMP_DIR true = .invalid →
      resolveDirState fs (some u) (fallbackTmpPath tmpdir (some u)) true = .invalid →
      resolvePreferredOpenClawTmpDir fs (some u) tmpdir =
        .error ("Unsafe fallback OpenClaw temp dir: " ++ fallbackTmpPath tmpdir (some u))) := by
  constructor
  · intro fs2 p h
    obtain ⟨hor, hav⟩ := resolvePreferredOpenClawTmpDir_ok fs (some u) tmpdir fs2 p h
    obtain ⟨st, hst, htrust⟩ := resolveDirState_available_stat fs2 (some u) p hav
    unfold isTrustedPreferredDir at htrust
    have h3 : st.isDirectory = true ∧ st.isSymbolicLink = false ∧
        isSecureDirForUser (some u) st = true := by
      simpa [Bool.and_assoc] using htrust
    obtain ⟨hdir, hsym, hsec⟩ := h3
    obtain ⟨huid, hmode⟩ := isSecureDirForUser_fields u st hsec
    exact ⟨hor, st, hst, hdir, hsym, huid, hmode⟩
  · intro hpref hfb
    have hstep1 : resolvePreferredOpenClawTmpDir fs (some u) tmpdir =
        ensureTrustedFallbackDir fs (some u) tmpdir := by
      unfold resolvePreferredOpenClawTmpDir
      rw [hpref]
    rw [hstep1]
    simp only [ensureTrustedFallbackDir]
    rw [hfb]

/-- Witness for C8: on a filesystem where `/tmp/openclaw` is a trusted
directory owned by uid 1000, the resolver returns it and the trust facts
hold. -/
theorem tmp_dir_trust_checks_witness :
    ((("/tmp/openclaw" : String) = POSIX_OPENCLAW_TMP_DIR ∨
        ("/tmp/openclaw" : String) = fallbackTmpPath "/tmp" (some 1000)) ∧
      ∃ st, sampleTrustedFs.lstat "/tmp/openclaw" = .stat st ∧
        st.isDirectory = true ∧ st.isSymbolicLink = false ∧
        (∀ v, st.uid = some v → v = 1000) ∧
        (∀ m, st.mode = some m → m &&& 18 = 0)) :=
  (tmp_dir_trust_checks sampleTrustedFs 1000 "/tmp").1 sampleTrustedFs
    "/tmp/openclaw" rfl

/-! ## Claim C9 -/

theorem resolveWithinTarget_good (l : List String) :
    ∀ (acc comps : List String), resolveWithinTarget l acc = some comps →
      (∀ c ∈ acc, c ≠ "" ∧ c ≠ "." ∧ c ≠ "..") →
      ∀ c ∈ comps, c ≠ "" ∧ c ≠ "." ∧ c ≠ ".." := by
  induction l with
  | nil =>
      intro acc comps h hacc c hc
      simp only [resolveWithinTarget, Option.some.injEq] at h
      subst h
      exact hacc c (by simpa using hc)
  | cons x rest ih =>
      intro acc comps h hacc
      unfold resolveWithinTarget at h
      split_ifs at h with h1 h2
      · exact ih acc comps h hacc
      · rcases hax : acc with _ | ⟨a, acc2⟩
        · rw [hax] at h
          exact absurd h (by simp)
        · rw [hax] at h
          refine ih acc2 comps h ?_
          intro c hc
          exact hacc c (by simp [hax, hc])
      · refine ih (x :: acc) comps h ?_
        intro c hc
        rcases List.mem_cons.1 hc with hc | hc
        · subst hc
          simp only [Bool.or_eq_true, decide_eq_true_eq] at h1 h2
          push_neg at h1
          constructor
          · exact h1.1
          · exact ⟨h1.2, h2⟩
        · exact hacc c hc

theorem validateEntry_some_comps (strip : Nat) (e : ArchiveEntry)
    (comps : List String)
    (h : validateEntry strip e = some (some comps)) :
    comps ≠ [] ∧ (∀ c ∈ comps, c ≠ "" ∧ c ≠ "." ∧ c ≠ "..") := by
  unfold validateEntry at h
  split_ifs at h with hs
  split at h
  · exact Option.noConfusion h
  · simp at h
  · rename_i c hcne hres
    simp only [Option.some.injEq] at h
    subst h
    refine ⟨fun hnil => hcne hnil, ?_⟩
    exact resolveWithinTarget_good _ [] c hres (by simp)

theorem mapM_validate_none (strip : Nat) :
    ∀ (entries : List ArchiveEntry) (e : ArchiveEntry), e ∈ entries →
      validateEntry strip e = none →
      entries.mapM (validateEntry strip) = none := by
  intro entries
  induction entries with
  | nil => intro e he; cases he
  | cons x rest ih =>
      intro e he hbad
      rw [List.mapM_cons]
      rcases List.mem_cons.1 he with h1 | h1
      · subst h1
        rw [hbad]
        rfl
      · cases hvx : validateEntry strip x with
        | none => rfl
        | some b =>
            rw [ih e h1 hbad]
            rfl

theorem mapM_validate_mem (strip : Nat) :
    ∀ (entries : List ArchiveEntry) (resolved : List (Option (List String))),
      entries.mapM (validateEntry strip) = some resolved →
      ∀ r ∈ resolved, ∃ e ∈ entries, validateEntry strip e = some r := by
  intro entries
  induction entries with
  | nil =>
      intro resolved h r hr
      simp only [List.mapM_nil, pure, Option.some.injEq] at h
      subst h
      exact absurd hr (List.not_mem_nil r)
  | cons x rest ih =>
      intro resolved h r hr
      rw [List.mapM_cons] at h
      cases hvx : validateEntry strip x with
      | none =>
          rw [hvx] at h
          exact Option.noConfusion h
      | some b =>
          rw [hvx] at h
          cases hrest : rest.mapM (validateEntry strip) with
          | none =>
              rw [hrest] at h
              exact Option.noConfusion h
          | some bs =>
              rw [hrest] at h
              have h2 : b :: bs = resolved := by simpa using h
              subst h2
              rcases List.mem_cons.1 hr with hr | hr
              · subst hr
                exact ⟨x, List.mem_cons_self x rest, hvx⟩
              · obtain ⟨e2, he2, hv2⟩ := ih bs hrest r hr
                exact ⟨e2, List.mem_cons_of_mem x he2, hv2⟩

/-- C9: archive extraction never creates a file outside `targetDir` — every
extracted file is `targetDir` joined with non-empty, traversal-free path
components — and an archive containing a symlink entry or an entry whose
path (after `stripComponents`) traverses upward is refused, creating
nothing. -/
theorem archive_extraction_safety (stripComponents : Nat) (targetDir : String)
    (entries : List ArchiveEntry) :
    (∀ files, extractArchive stripComponents targetDir entries = .ok files →
      ∀ f ∈ files, ∃ comps, comps ≠ [] ∧
        (∀ c ∈ comps, c ≠ "" ∧ c ≠ "." ∧ c ≠ "..") ∧
        f = joinPath targetDir (String.intercalate "/" comps)) ∧
    (∀ e ∈ entries, (e.isSymlink = true ∨
        resolveWithinTarget ((splitOnChar '/' e.path).drop stripComponents) [] = none) →
      extractArchive stripComponents targetDir entries =
        .error "extraction refused: unsafe archive entry") := by
  constructor
  · intro files h f hf
    unfold extractArchive at h
    split at h
    · exact Except.noConfusion h
    · rename_i resolved hres
      simp only [Except.ok.injEq] at h
      subst h
      obtain ⟨comps, hcm, hcj⟩ := List.mem_map.1 hf
      obtain ⟨r, hrm, hrid⟩ := List.mem_filterMap.1 hcm
      have hrsome : r = some comps := hrid
      subst hrsome
      obtain ⟨e, hem, hev⟩ := mapM_validate_mem stripComponents entries resolved hres
        (some comps) hrm
      obtain ⟨hne, hgood⟩ := validateEntry_some_comps stripComponents e comps hev
      exact ⟨comps, hne, hgood, hcj.symm⟩
  · intro e he hbad
    have hnone : validateEntry stripComponents e = none := by
      rcases hbad with hb | hb
      · unfold validateEntry
        rw [if_pos hb]
      · unfold validateEntry
        by_cases hs : e.isSymlink = true
        · rw [if_pos hs]
        · rw [if_neg hs, hb]
    unfold extractArchive
    rw [mapM_validate_none stripComponents entries e he hnone]

/-- Witness for C9: an archive containing `../x` is refused. -/
theorem archive_extraction_safety_witness :
    extractArchive 0 "/target" [{ path := "../x" }] =
      .error "extraction refused: unsafe archive entry" :=
  (archive_extraction_safety 0 "/target" [{ path := "../x" }]).2
    { path := "../x" } (by simp) (Or.inr (by decide))
